import Mathlib

/-!
Shallow embedding of yotta's dependency-resolution core
(`yotta/lib/component.py`) and proofs about it.

The `Component` class becomes a record of its instance fields; Python
exceptions become `Except Exn`; the thread pool's `map` is modelled as a
sequential `List.map` (each per-dependency task is independent and its
result list is order-paired with the spec list, exactly as `pool.map`
guarantees); the external version satisfier (`access.satisfyVersion`) is an
oracle parameter, and Python's shared mutable `available_components` dict
is threaded explicitly as an insertion-ordered association list with
overwriting update, matching `dict.update`.
-/

namespace Yotta

/-- Python exceptions that can escape the code under study. -/
inductive Exn where
  | keyError (key : String)
  | typeError
  | valueError
  | ioError (msg : String)
  deriving DecidableEq, Repr

/-- The parsed `package.json` description document (`ordered_json.readJSON`
result).  Key presence is modelled with `Option`; `dependencies` and
`targetDependencies` preserve declaration order as the ordered JSON reader
does. -/
structure Doc where
  name : String
  version : Option String
  dependencies : Option (List (String × String))
  targetDependencies : Option (List (String × List (String × String)))
  deriving DecidableEq, Repr

/-- The instance fields of Python's `Component` class. -/
structure Component where
  path : String
  component_info : Option Doc
  version : Option Nat
  error : Option Exn
  installed_previously : Bool
  installed_linked : Bool
  installed_dependencies : Bool
  dependencies_failed : Bool
  latest_suitable_version : Option Nat
  deriving DecidableEq, Repr

/-- `Component.__init__`: try to read the description document and parse its
version; on any failure the component becomes invalid with the error
captured on the instance (nothing is raised).  `readResult` stands for
`ordered_json.readJSON(path/package.json)` and `parseVersion` for
`version.Version`; versions are opaque comparable values, modelled as `Nat`. -/
def Component.init (path : String) (readResult : Except Exn Doc)
    (parseVersion : String → Except Exn Nat)
    (installed_previously installed_linked : Bool)
    (latest_suitable_version : Option Nat) : Component :=
  match readResult with
  | Except.error e =>
      { path := path, component_info := none, version := none, error := some e,
        installed_previously := installed_previously, installed_linked := installed_linked,
        installed_dependencies := false, dependencies_failed := false,
        latest_suitable_version := latest_suitable_version }
  | Except.ok info =>
      match info.version with
      | none =>
          { path := path, component_info := none, version := none,
            error := some (Exn.keyError "version"),
            installed_previously := installed_previously, installed_linked := installed_linked,
            installed_dependencies := false, dependencies_failed := false,
            latest_suitable_version := latest_suitable_version }
      | some vstr =>
          match parseVersion vstr with
          | Except.error e =>
              { path := path, component_info := none, version := none, error := some e,
                installed_previously := installed_previously, installed_linked := installed_linked,
                installed_dependencies := false, dependencies_failed := false,
                latest_suitable_version := latest_suitable_version }
          | Except.ok v =>
              { path := path, component_info := some info, version := some v, error := none,
                installed_previously := installed_previously, installed_linked := installed_linked,
                installed_dependencies := false, dependencies_failed := false,
                latest_suitable_version := latest_suitable_version }

/-- `Component.__nonzero__`: truthiness of a component, true only if the
package file was successfully read. -/
def Component.nonzero (c : Component) : Bool :=
  c.component_info.isSome

/-- `Component.getName` (defined total; every call site in the embedding is
guarded by truthiness, as in the source, so the `""` default is never
observable). -/
def Component.getName (c : Component) : String :=
  match c.component_info with
  | some info => info.name
  | none => ""

/-- `Component.outdated`: the newer suitable version if one is strictly
newer than the current one.  In Python 2, any `Version` compares greater
than `None`, which the `version = none` case reflects. -/
def Component.outdated (c : Component) : Option Nat :=
  match c.latest_suitable_version with
  | none => none
  | some latest =>
    match c.version with
    | none => some latest
    | some v => if v < latest then some latest else none

/-- `Component.installedPreviously`. -/
def Component.installedPreviously (c : Component) : Bool :=
  c.installed_previously

/-- `Component.installedDependencies`. -/
def Component.installedDependencies (c : Component) : Bool :=
  c.installed_dependencies

/-- The cross-compilation target collaborator: only its ordered
ancestor/alias resolution order is consumed by this module. -/
structure Target where
  dependencyResolutionOrder : List String
  deriving DecidableEq, Repr

/-- JSON-object key lookup inside the `targetDependencies` map
(`t in d` / `d[t]`). -/
def lookupTargetDeps (td : List (String × List (String × String))) (t : String) :
    Option (List (String × String)) :=
  match td with
  | [] => none
  | (k, v) :: rest => if k = t then some v else lookupTargetDeps rest t

/-- The `for t in target.dependencyResolutionOrder(): ... break` loop of
`getDependencySpecs`: the extra specs of the first resolution-order name
that is a key of `targetDependencies`, if any. -/
def firstTargetDeps (order : List String)
    (td : List (String × List (String × String))) :
    Option (List (String × String)) :=
  match order with
  | [] => none
  | t :: rest =>
    match lookupTargetDeps td t with
    | some extra => some extra
    | none => firstTargetDeps rest td

/-- `Component.getDependencySpecs`: the declared `dependencies` pairs in
order, with the first matching target-dependency block appended.  Faithful
to the source, indexing a missing `dependencies` key raises `KeyError`, and
indexing an absent document raises `TypeError`. -/
def getDependencySpecs (self : Component) (target : Option Target) :
    Except Exn (List (String × String)) :=
  match self.component_info with
  | none => Except.error Exn.typeError
  | some info =>
    match info.dependencies with
    | none => Except.error (Exn.keyError "dependencies")
    | some deps =>
      match target, info.targetDependencies with
      | some t, some td =>
        match firstTargetDeps t.dependencyResolutionOrder td with
        | some extra => Except.ok (deps ++ extra)
        | none => Except.ok deps
      | some _, none => Except.ok deps
      | none, _ => Except.ok deps

/-- The error `access_common.ComponentUnavailable`. -/
inductive SatErr where
  | componentUnavailable (msg : String)
  deriving DecidableEq, Repr

/-- The shared `available_components` mapping (a Python dict: name keyed,
overwriting update). -/
abbrev CompMap := List (String × Component)

/-- Python `name in d` / `d[name]`. -/
def lookupMap (m : CompMap) (k : String) : Option Component :=
  match m with
  | [] => none
  | (k', c) :: rest => if k' = k then some c else lookupMap rest k

/-- Python `d[k] = v`: overwrite in place, or append a new binding. -/
def insertOv (m : CompMap) (k : String) (c : Component) : CompMap :=
  match m with
  | [] => [(k, c)]
  | (k', c') :: rest =>
    if k' = k then (k', c) :: rest else (k', c') :: insertOv rest k c

/-- Python `d.update(dNew)`. -/
def updAll (m mNew : CompMap) : CompMap :=
  mNew.foldl (fun acc kv => insertOv acc kv.1 kv.2) m

/-- Python `d.values()`. -/
def mapValues (m : CompMap) : List Component :=
  m.map (fun kv => kv.2)

/-- The external satisfier `access.satisfyVersion(name, ver_req,
modules_path, available_components, update_installed)`: returns an
installed component or fails with `ComponentUnavailable`. -/
abbrev Satisfier := String → String → String → CompMap → Option String → Except SatErr Component

/-- Errors accumulated by the resolution run: satisfier failures plus the
per-component context label strings. -/
inductive RErr where
  | unavailable (e : SatErr)
  | label (s : String)
  deriving DecidableEq, Repr

/-- One external satisfier invocation, recorded with the component on whose
behalf (whose direct dependency list) it was issued. -/
structure CallEv where
  caller : Component
  name : String
  ver_req : String
  modules_path : String
  update_mode : Option String
  deriving DecidableEq, Repr

def Modules_Folder : String := "yotta_modules"
def Targets_Folder : String := "yotta_targets"

/-- `os.path.join(self.path, Modules_Folder)`. -/
def modulesPath (c : Component) : String :=
  c.path ++ "/" ++ Modules_Folder

/-- `os.path.join(self.path, Targets_Folder)`. -/
def targetsPath (c : Component) : String :=
  c.path ++ "/" ++ Targets_Folder

/-- `update_installed=('Update' if update_installed else None)`. -/
def updateModeArg (update_installed : Bool) : Option String :=
  if update_installed then some "Update" else none

/-- Result of one `satisfyDependencies` call: the name-keyed mapping of
successes, the accumulated errors, the mutated `self` (flag updates), and
the ghost log of satisfier invocations. -/
structure DepResult where
  components : CompMap
  errors : List RErr
  selfAfter : Component
  calls : List CallEv
  deriving DecidableEq, Repr

/-- The inner `satisfyDep` closure: one satisfier call for one spec. -/
def satisfyDep (sat : Satisfier) (mp : String) (avail : CompMap)
    (um : Option String) (spec : String × String) : Except SatErr Component :=
  sat spec.1 spec.2 mp avail um

/-- One step of building the success mapping
`{d.component_info['name']: d for d in dependencies if d}`: a satisfier
failure (Python `None`) and a falsy component contribute nothing; a truthy
component is keyed by its own declared name (last writer wins). -/
def depStep (m : CompMap) (o : Except SatErr Component) : CompMap :=
  match o with
  | Except.ok d => if d.nonzero then insertOv m d.getName d else m
  | Except.error _ => m

/-- The no-duplicate-keys invariant of name-keyed mappings. -/
def NodupKeys (m : CompMap) : Prop :=
  (m.map Prod.fst).Nodup

/-- The `except ComponentUnavailable` clause applied across the outcome
list: each failing satisfier call contributes its error to `errors`
(successes contribute nothing). -/
def depErrors (outcomes : List (Except SatErr Component)) : List RErr :=
  outcomes.filterMap (fun o =>
    match o with
    | Except.error e => some (RErr.unavailable e)
    | Except.ok _ => none)

/-- `Component.satisfyDependencies`: resolve every direct dependency spec
through the satisfier; a `ComponentUnavailable` failure is caught, recorded
in the error list and sets `dependencies_failed`; the success mapping is
keyed by each installed component's own declared name and silently drops
falsy components; `installed_dependencies` is set unconditionally. -/
def satisfyDependencies (sat : Satisfier) (self : Component) (avail : CompMap)
    (update_installed : Bool) (target : Option Target) : Except Exn DepResult :=
  match getDependencySpecs self target with
  | Except.error e => Except.error e
  | Except.ok specs =>
    let mp := modulesPath self
    let um := updateModeArg update_installed
    let outcomes := specs.map (fun s => satisfyDep sat mp avail um s)
    let errors := depErrors outcomes
    let comps := outcomes.foldl depStep ([] : CompMap)
    Except.ok
      { components := comps,
        errors := errors,
        selfAfter := { self with
                         installed_dependencies := true,
                         dependencies_failed := self.dependencies_failed || !errors.isEmpty },
        calls := specs.map (fun s =>
          { caller := self, name := s.1, ver_req := s.2,
            modules_path := mp, update_mode := um }) }

/-- The `recursionFilter` closure of `satisfyDependenciesRecursive`,
checked against the shared mapping as it stood before this level's results
were merged. -/
def recursionFilter (avail : CompMap) (update_installed : Bool) (c : Component) : Bool :=
  if !c.nonzero then false
  else if (lookupMap avail c.getName).isSome then false
  else if c.installed_linked then false
  else if update_installed then
    c.outdated.isSome || !c.installedDependencies
  else
    !(c.installedPreviously || c.installedDependencies)

/-- Result of one `satisfyDependenciesRecursive` call: this level's direct
results and the accumulated errors (the returned pair), plus the mutated
`self`, the final state of the shared mapping, and the ghost logs of the
components recursed into and of all satisfier invocations in the subtree. -/
structure RecResult where
  components : CompMap
  errors : List RErr
  selfAfter : Component
  availAfter : CompMap
  recursed : List Component
  calls : List CallEv
  deriving DecidableEq, Repr

/-- The sequential `for c in need_recursion:` loop: recurse into each
component in turn, merging each subtree's level results into the shared
mapping and appending its errors. -/
def recurseLoop (f : Component → CompMap → Option (Except Exn RecResult)) :
    List Component → CompMap →
    Option (Except Exn (CompMap × List RErr × List Component × List CallEv))
  | [], avail => some (Except.ok (avail, [], [], []))
  | c :: rest, avail =>
    match f c avail with
    | none => none
    | some (Except.error e) => some (Except.error e)
    | some (Except.ok r) =>
      match recurseLoop f rest (updAll r.availAfter r.components) with
      | none => none
      | some (Except.error e) => some (Except.error e)
      | some (Except.ok (availF, errs, recs, calls)) =>
        some (Except.ok (availF, r.errors ++ errs, c :: (r.recursed ++ recs), r.calls ++ calls))

/-- `Component.satisfyDependenciesRecursive`: one level of direct
resolution, a context label prefixed onto a non-empty error list, the
recursion subset computed by `recursionFilter` against the pre-merge
mapping, the level results merged into the shared mapping before any
recursion, then strictly sequential recursion.  The `fuel` bound makes the
unbounded Python recursion a total function; `none` means the bound was
exhausted. -/
def satisfyDependenciesRecursive (sat : Satisfier) (fuel : Nat) (self : Component)
    (avail : CompMap) (update_installed : Bool) (target : Option Target) :
    Option (Except Exn RecResult) :=
  match fuel with
  | 0 => none
  | Nat.succ fuel' =>
    match satisfyDependencies sat self avail update_installed target with
    | Except.error e => some (Except.error e)
    | Except.ok dr =>
      let errors0 := if dr.errors.isEmpty then dr.errors
        else RErr.label ("Failed to satisfy dependencies of " ++ self.path ++ ":") :: dr.errors
      let need := (mapValues dr.components).filter (recursionFilter avail update_installed)
      match recurseLoop
          (fun c av => satisfyDependenciesRecursive sat fuel' c av update_installed target)
          need (updAll avail dr.components) with
      | none => none
      | some (Except.error e) => some (Except.error e)
      | some (Except.ok (availF, errs, recs, calls)) =>
        some (Except.ok
          { components := dr.components,
            errors := errors0 ++ errs,
            selfAfter := dr.selfAfter,
            availAfter := availF,
            recursed := recs,
            calls := dr.calls ++ calls })

/-- The error `access_common.TargetUnavailable`. -/
inductive TgtErr where
  | targetUnavailable (msg : String)
  deriving DecidableEq, Repr

/-- The external target satisfier `access.satisfyTarget(name, version_req,
targets_path, update_installed)`; per its contract it fails only with
`TargetUnavailable`. -/
abbrev TargetSatisfier := String → String → String → Option String → Except TgtErr Target

/-- Split a character sequence at the first comma, if there is one. -/
def splitOnceCommaChars : List Char → Option (List Char × List Char)
  | [] => none
  | c :: rest =>
    if c = ',' then some ([], rest)
    else
      match splitOnceCommaChars rest with
      | none => none
      | some (a, b) => some (c :: a, b)

/-- Python `s.split(',', 1)` followed by unpacking into exactly two names:
`none` when there is no comma (in which case the unpacking raises
`ValueError`). -/
def splitOnceComma (s : String) : Option (String × String) :=
  match splitOnceCommaChars s.toList with
  | none => none
  | some (a, b) => some (String.mk a, String.mk b)

/-- `Component.satisfyTarget`: split the combined specifier, delegate to
the target satisfier, and catch only `TargetUnavailable`; the `ValueError`
from a comma-less specifier escapes the `try` (only `TargetUnavailable` is
caught). -/
def satisfyTarget (satT : TargetSatisfier) (self : Component)
    (target_name_and_version : String) (update_installed : Bool) :
    Except Exn (Option Target × List TgtErr) :=
  match splitOnceComma target_name_and_version with
  | none => Except.error Exn.valueError
  | some (target_name, target_version_req) =>
    match satT target_name target_version_req (targetsPath self)
        (updateModeArg update_installed) with
    | Except.ok t => Except.ok (some t, [])
    | Except.error e => Except.ok (none, [e])

/-! ### Contracts of the external satisfier and run invariants

`access.satisfyVersion` is outside this module; these predicates state the
contract the spec assigns to it: it reuses an entry of
`available_components` rather than re-resolving an already-available name,
and an installed component it produces for a fresh name declares that
requested name. -/

/-- The shared mapping is name-keyed: every bound component is truthy and
declares the name it is keyed under. -/
def AvailInv (m : CompMap) : Prop :=
  ∀ k c, lookupMap m k = some c → c.nonzero = true ∧ c.getName = k

/-- Modelled from the spec: the satisfier resolves a dependency "either
reusing an entry from the available mapping or delegating" — for a name
already in `available_components` it returns that same component. -/
def SatReuses (sat : Satisfier) : Prop :=
  ∀ n vr mp m um c, lookupMap m n = some c → sat n vr mp m um = Except.ok c

/-- Modelled from the spec: for a name not yet available, a truthy
component the satisfier installs carries the requested dependency name
(resolution is name-keyed). -/
def SatFreshNamed (sat : Satisfier) : Prop :=
  ∀ n vr mp m um d, lookupMap m n = none → sat n vr mp m um = Except.ok d →
    d.nonzero = true → d.getName = n

/-- Inductive invariant of one whole recursive call: the shared mapping
only grows and never rebinds a name; it stays name-keyed; the level
results are name-keyed with unique keys and end up in the final mapping;
components recursed into were not available when the call started, their
names are in the final mapping, and no name is recursed into twice. -/
abbrev RecBundle (avail : CompMap) (res : RecResult) : Prop :=
  (∀ k c, lookupMap avail k = some c → lookupMap res.availAfter k = some c)
  ∧ AvailInv res.availAfter
  ∧ NodupKeys res.components
  ∧ (∀ kv ∈ res.components, kv.2.nonzero = true ∧ kv.2.getName = kv.1)
  ∧ (∀ k c, lookupMap res.components k = some c → lookupMap res.availAfter k = some c)
  ∧ (∀ x ∈ res.recursed, lookupMap avail x.getName = none)
  ∧ (∀ x ∈ res.recursed, (lookupMap res.availAfter x.getName).isSome = true)
  ∧ (res.recursed.map Component.getName).Nodup

/-- The loop-level cut of `RecBundle` across the `need_recursion` fold. -/
abbrev LoopBundle (need : List Component) (avail availF : CompMap)
    (recs : List Component) : Prop :=
  (∀ k c, lookupMap avail k = some c → lookupMap availF k = some c)
  ∧ AvailInv availF
  ∧ (∀ x ∈ recs, x ∈ need ∨ lookupMap avail x.getName = none)
  ∧ (∀ x ∈ recs, (lookupMap availF x.getName).isSome = true)
  ∧ (recs.map Component.getName).Nodup

/-! ### Concrete fixtures used by the witness theorems -/

/-- A fresh valid component, declared under the requested name, as the
witness satisfier installs for a not-yet-available name. -/
def freshComp (n : String) : Component :=
  { path := "proj/yotta_modules/" ++ n,
    component_info := some { name := n, version := some "1.0.0",
                             dependencies := some [], targetDependencies := none },
    version := some 1, error := none,
    installed_previously := false, installed_linked := false,
    installed_dependencies := false, dependencies_failed := false,
    latest_suitable_version := none }

/-- A witness satisfier obeying the documented contract: reuse an
already-available name, else install a fresh component under the requested
name. -/
def satW : Satisfier := fun n _ _ m _ =>
  match lookupMap m n with
  | some c => Except.ok c
  | none => Except.ok (freshComp n)

/-- A root with one direct dependency, for the shallowest-wins witness. -/
def rootW : Component :=
  { path := "proj",
    component_info := some { name := "app", version := some "0.0.1",
                             dependencies := some [("A", "*")], targetDependencies := none },
    version := some 1, error := none,
    installed_previously := false, installed_linked := false,
    installed_dependencies := false, dependencies_failed := false,
    latest_suitable_version := none }

/-- A description document with no `dependencies` key. -/
def docNoDeps : Doc :=
  { name := "app", version := some "0.0.1", dependencies := none, targetDependencies := none }

/-- A valid root component whose description has no `dependencies` key. -/
def rootNoDeps : Component :=
  { path := "proj", component_info := some docNoDeps, version := some 1, error := none,
    installed_previously := false, installed_linked := false,
    installed_dependencies := false, dependencies_failed := false,
    latest_suitable_version := none }

/-- A satisfier that always fails with `ComponentUnavailable`. -/
def satRefuse : Satisfier := fun _ _ _ _ _ => Except.error (SatErr.componentUnavailable "nope")

/-- A target satisfier that always fails with `TargetUnavailable`. -/
def tgtSatRefuse : TargetSatisfier := fun _ _ _ _ => Except.error (TgtErr.targetUnavailable "no")

/-- A valid component used as the receiver of `satisfyTarget`. -/
def compT8 : Component :=
  { path := "workdir", component_info := some docNoDeps, version := some 1, error := none,
    installed_previously := false, installed_linked := false,
    installed_dependencies := false, dependencies_failed := false,
    latest_suitable_version := none }

/-- A concrete stand-in for `version.Version`: accepts only `"1.0.0"`. -/
def parseVerFixed : String → Except Exn Nat := fun s =>
  if s = "1.0.0" then Except.ok 1 else Except.error Exn.valueError

/-- A valid, not-linked component with dependencies installed and a newer
suitable version attached (so `outdated()` is truthy). -/
def cUpd : Component :=
  { path := "proj/yotta_modules/u",
    component_info := some { name := "u", version := some "1.0.0",
                             dependencies := some [], targetDependencies := none },
    version := some 1, error := none,
    installed_previously := true, installed_linked := false,
    installed_dependencies := true, dependencies_failed := false,
    latest_suitable_version := some 2 }

/-- A description document with both plain dependencies and two
target-dependency blocks. -/
def doc7 : Doc :=
  { name := "lib7", version := some "1.0.0",
    dependencies := some [("A", "*")],
    targetDependencies := some [("linux", [("B", "^2.0.0")]), ("generic", [("C", "*")])] }

/-- A valid component carrying `doc7`. -/
def comp7 : Component :=
  { path := "proj/l7", component_info := some doc7, version := some 1, error := none,
    installed_previously := false, installed_linked := false,
    installed_dependencies := false, dependencies_failed := false,
    latest_suitable_version := none }

/-- A target whose ancestor resolution order matches two of `doc7`'s
target-dependency keys; only the first match may be applied. -/
def target7 : Target :=
  { dependencyResolutionOrder := ["x86-linux", "linux", "generic"] }

/-- A truthy component declaring the name `"real"`. -/
def compReal : Component :=
  { path := "proj/yotta_modules/req",
    component_info := some { name := "real", version := some "1.0.0",
                             dependencies := some [], targetDependencies := none },
    version := some 1, error := none,
    installed_previously := false, installed_linked := false,
    installed_dependencies := false, dependencies_failed := false,
    latest_suitable_version := none }

/-- A falsy component: its description could not be parsed. -/
def compFalsy : Component :=
  { path := "proj/yotta_modules/bad", component_info := none, version := none,
    error := some Exn.typeError,
    installed_previously := false, installed_linked := false,
    installed_dependencies := false, dependencies_failed := false,
    latest_suitable_version := none }

/-- A root component with two direct dependency specs. -/
def root10 : Component :=
  { path := "proj",
    component_info := some { name := "app", version := some "0.0.1",
                             dependencies := some [("req", "*"), ("bad", "*")],
                             targetDependencies := none },
    version := some 1, error := none,
    installed_previously := false, installed_linked := false,
    installed_dependencies := false, dependencies_failed := false,
    latest_suitable_version := none }

/-- A satisfier returning a component declared under a different name for
`"req"` and a falsy component for `"bad"`. -/
def sat10 : Satisfier := fun n _ _ _ _ =>
  if n = "req" then Except.ok compReal
  else Except.ok compFalsy

/-- A satisfier that succeeds with `compReal` for `"req"` and fails with
`ComponentUnavailable` for anything else. -/
def sat4 : Satisfier := fun n _ _ _ _ =>
  if n = "req" then Except.ok compReal
  else Except.error (SatErr.componentUnavailable "bad@*")

/-- A symlink-installed (externally pinned) component that is valid,
outdated, and has never had its dependencies installed — every recursion
reason except the symlink check would fire. -/
def linkedComp : Component :=
  { path := "proj/yotta_modules/L",
    component_info := some { name := "L", version := some "1.0.0",
                             dependencies := some [("X", "*")], targetDependencies := none },
    version := some 1, error := none,
    installed_previously := true, installed_linked := true,
    installed_dependencies := false, dependencies_failed := false,
    latest_suitable_version := some 3 }

/-- A satisfier that resolves every request to the symlinked component. -/
def satLinked : Satisfier := fun _ _ _ _ _ => Except.ok linkedComp

/-- A non-linked root whose only dependency resolves to `linkedComp`. -/
def rootL : Component :=
  { path := "proj",
    component_info := some { name := "app", version := some "0.0.1",
                             dependencies := some [("L", "*")], targetDependencies := none },
    version := some 1, error := none,
    installed_previously := false, installed_linked := false,
    installed_dependencies := false, dependencies_failed := false,
    latest_suitable_version := none }

/-- A valid, not-linked component that was already on disk before the run,
with its dependencies installed, and with a newer version available. -/
def cPrev : Component :=
  { path := "proj/yotta_modules/p",
    component_info := some { name := "p", version := some "1.0.0",
                             dependencies := some [], targetDependencies := none },
    version := some 1, error := none,
    installed_previously := true, installed_linked := false,
    installed_dependencies := true, dependencies_failed := false,
    latest_suitable_version := some 2 }

end Yotta

/-! ## Helper lemmas -/

namespace Yotta

/-- Looking up the key just written by `insertOv` yields the new value. -/
theorem lookupMap_insertOv_self (m : CompMap) (k : String) (v : Component) :
    lookupMap (insertOv m k v) k = some v := by
  induction m with
  | nil => simp [insertOv, lookupMap]
  | cons kv rest ih =>
    obtain ⟨k0, c0⟩ := kv
    by_cases h0 : k0 = k
    · simp [insertOv, lookupMap, h0]
    · simp [insertOv, lookupMap, h0, ih]

/-- `insertOv` leaves every other key's binding unchanged. -/
theorem lookupMap_insertOv_ne (m : CompMap) (k' : String) (v : Component) (k : String)
    (h : k' ≠ k) : lookupMap (insertOv m k' v) k = lookupMap m k := by
  induction m with
  | nil => simp [insertOv, lookupMap, h]
  | cons kv rest ih =>
    obtain ⟨k0, c0⟩ := kv
    by_cases h0 : k0 = k'
    · subst h0
      have hk : ¬ k0 = k := h
      simp [insertOv, lookupMap, hk]
    · simp only [insertOv, if_neg h0]
      by_cases hk : k0 = k
      · simp [lookupMap, hk]
      · simp [lookupMap, hk, ih]

/-- A key present before `insertOv` is still present afterwards. -/
theorem lookupMap_insertOv_isSome (m : CompMap) (k' : String) (v : Component) (k : String)
    (h : (lookupMap m k).isSome = true) :
    (lookupMap (insertOv m k' v) k).isSome = true := by
  by_cases hk : k' = k
  · subst hk
    simp [lookupMap_insertOv_self]
  · rwa [lookupMap_insertOv_ne m k' v k hk]

/-- Every binding of an `insertOv` result is an old binding or the new pair. -/
theorem mem_insertOv (m : CompMap) (k : String) (v : Component) (kv : String × Component)
    (h : kv ∈ insertOv m k v) : kv ∈ m ∨ kv = (k, v) := by
  induction m with
  | nil => simpa [insertOv] using h
  | cons kv0 rest ih =>
    obtain ⟨k0, c0⟩ := kv0
    by_cases h0 : k0 = k
    · subst h0
      have he : insertOv ((k0, c0) :: rest) k0 v = (k0, v) :: rest := by
        simp [insertOv]
      rw [he] at h
      rcases List.mem_cons.1 h with h1 | h1
      · right; exact h1
      · left; exact List.mem_cons_of_mem _ h1
    · simp only [insertOv, if_neg h0] at h
      rcases List.mem_cons.1 h with h1 | h1
      · left; rw [h1]; exact List.mem_cons_self _ _
      · rcases ih h1 with h2 | h2
        · left; exact List.mem_cons_of_mem _ h2
        · right; exact h2

/-- The keys produced by `insertOv` are the old keys plus possibly `k`. -/
theorem mem_keys_insertOv (m : CompMap) (k : String) (v : Component) (a : String)
    (h : a ∈ (insertOv m k v).map Prod.fst) : a ∈ m.map Prod.fst ∨ a = k := by
  rcases List.mem_map.1 h with ⟨kv, hkv, ha⟩
  rcases mem_insertOv m k v kv hkv with h1 | h1
  · left; exact ha ▸ List.mem_map_of_mem _ h1
  · right; rw [← ha, h1]

/-- `insertOv` preserves key uniqueness. -/
theorem nodupKeys_insertOv (m : CompMap) (k : String) (v : Component)
    (h : NodupKeys m) : NodupKeys (insertOv m k v) := by
  induction m with
  | nil => simp [insertOv, NodupKeys]
  | cons kv0 rest ih =>
    obtain ⟨k0, c0⟩ := kv0
    unfold NodupKeys at h
    simp only [List.map_cons, List.nodup_cons] at h
    by_cases h0 : k0 = k
    · subst h0
      have he : insertOv ((k0, c0) :: rest) k0 v = (k0, v) :: rest := by
        simp [insertOv]
      unfold NodupKeys
      rw [he]
      simp only [List.map_cons, List.nodup_cons]
      exact h
    · unfold NodupKeys
      simp only [insertOv, if_neg h0, List.map_cons, List.nodup_cons]
      refine ⟨?_, ih h.2⟩
      intro hmem
      rcases mem_keys_insertOv rest k v k0 hmem with h1 | h1
      · exact h.1 h1
      · exact h0 h1

/-- The empty mapping trivially has unique keys. -/
theorem nodupKeys_nil : NodupKeys ([] : CompMap) := by
  simp [NodupKeys]

/-- With unique keys, list membership determines the lookup result. -/
theorem lookupMap_of_mem_nodup (m : CompMap) (k : String) (c : Component)
    (hnd : NodupKeys m) (h : (k, c) ∈ m) : lookupMap m k = some c := by
  induction m with
  | nil => simp at h
  | cons kv0 rest ih =>
    obtain ⟨k0, c0⟩ := kv0
    unfold NodupKeys at hnd
    simp only [List.map_cons, List.nodup_cons] at hnd
    rcases List.mem_cons.1 h with h1 | h1
    · have hk : k = k0 ∧ c = c0 := by
        simpa [Prod.ext_iff] using h1
      obtain ⟨hk1, hk2⟩ := hk
      subst hk1
      subst hk2
      simp [lookupMap]
    · have hk0 : k0 ≠ k := by
        intro hk
        subst hk
        exact hnd.1 (List.mem_map_of_mem Prod.fst h1)
      simp [lookupMap, hk0, ih hnd.2 h1]

/-- A lookup hit is a membership. -/
theorem mem_of_lookupMap (m : CompMap) (k : String) (c : Component)
    (h : lookupMap m k = some c) : (k, c) ∈ m := by
  induction m with
  | nil => simp [lookupMap] at h
  | cons kv0 rest ih =>
    obtain ⟨k0, c0⟩ := kv0
    by_cases h0 : k0 = k
    · subst h0
      simp only [lookupMap, if_pos rfl] at h
      obtain hc := Option.some_inj.1 h
      rw [← hc]
      exact List.mem_cons_self _ _
    · simp only [lookupMap, if_neg h0] at h
      exact List.mem_cons_of_mem _ (ih h)

/-- Every binding of the folded success mapping is an initial binding or a
truthy satisfier result keyed by its own declared name. -/
theorem comps_foldl_lookup (outcomes : List (Except SatErr Component)) :
    ∀ (m0 : CompMap) (k : String) (c : Component),
    lookupMap (outcomes.foldl depStep m0) k = some c →
    lookupMap m0 k = some c
    ∨ (Except.ok c ∈ outcomes ∧ c.nonzero = true ∧ c.getName = k) := by
  induction outcomes with
  | nil => intro m0 k c h; exact Or.inl h
  | cons o rest ih =>
    intro m0 k c h
    rw [List.foldl_cons] at h
    rcases ih (depStep m0 o) k c h with h1 | h1
    · cases o with
      | error e => exact Or.inl h1
      | ok d =>
        by_cases hdz : d.nonzero = true
        · by_cases hk : d.getName = k
          · rw [show depStep m0 (Except.ok d) = insertOv m0 d.getName d by
                simp [depStep, hdz], hk, lookupMap_insertOv_self] at h1
            obtain rfl : d = c := Option.some_inj.1 h1
            exact Or.inr ⟨List.mem_cons_self _ _, hdz, hk⟩
          · rw [show depStep m0 (Except.ok d) = insertOv m0 d.getName d by
                simp [depStep, hdz], lookupMap_insertOv_ne _ _ _ _ hk] at h1
            exact Or.inl h1
        · rw [show depStep m0 (Except.ok d) = m0 by simp [depStep, hdz]] at h1
          exact Or.inl h1
    · exact Or.inr ⟨List.mem_cons_of_mem _ h1.1, h1.2⟩

/-- A truthy satisfier success (or an initially present key) ends up
present in the folded success mapping. -/
theorem comps_foldl_present (outcomes : List (Except SatErr Component)) :
    ∀ (m0 : CompMap) (d : Component), d.nonzero = true →
    (Except.ok d ∈ outcomes ∨ (lookupMap m0 d.getName).isSome = true) →
    (lookupMap (outcomes.foldl depStep m0) d.getName).isSome = true := by
  induction outcomes with
  | nil =>
    intro m0 d _ h
    rcases h with h | h
    · simp at h
    · exact h
  | cons o rest ih =>
    intro m0 d hdz h
    rw [List.foldl_cons]
    rcases h with h | h
    · rcases List.mem_cons.1 h with h1 | h1
      · refine ih (depStep m0 o) d hdz (Or.inr ?_)
        rw [← h1, show depStep m0 (Except.ok d) = insertOv m0 d.getName d by
          simp [depStep, hdz], lookupMap_insertOv_self]
        rfl
      · exact ih (depStep m0 o) d hdz (Or.inl h1)
    · refine ih (depStep m0 o) d hdz (Or.inr ?_)
      cases o with
      | error e => exact h
      | ok d' =>
        by_cases hdz' : d'.nonzero = true
        · rw [show depStep m0 (Except.ok d') = insertOv m0 d'.getName d' by
            simp [depStep, hdz']]
          exact lookupMap_insertOv_isSome _ _ _ _ h
        · rw [show depStep m0 (Except.ok d') = m0 by simp [depStep, hdz']]
          exact h

/-- Every entry of the folded success mapping (started empty) is truthy and
keyed by its own declared name. -/
theorem comps_foldl_entries (outcomes : List (Except SatErr Component)) :
    ∀ (m0 : CompMap) (kv : String × Component),
    kv ∈ outcomes.foldl depStep m0 →
    kv ∈ m0 ∨ (kv.2.nonzero = true ∧ kv.2.getName = kv.1) := by
  induction outcomes with
  | nil => intro m0 kv h; exact Or.inl h
  | cons o rest ih =>
    intro m0 kv h
    rw [List.foldl_cons] at h
    rcases ih (depStep m0 o) kv h with h1 | h1
    · cases o with
      | error e => exact Or.inl h1
      | ok d =>
        by_cases hdz : d.nonzero = true
        · rw [show depStep m0 (Except.ok d) = insertOv m0 d.getName d by
            simp [depStep, hdz]] at h1
          rcases mem_insertOv _ _ _ _ h1 with h2 | h2
          · exact Or.inl h2
          · refine Or.inr ?_
            rw [h2]
            exact ⟨hdz, rfl⟩
        · rw [show depStep m0 (Except.ok d) = m0 by simp [depStep, hdz]] at h1
          exact Or.inl h1
    · exact Or.inr h1

/-- The folded success mapping has unique keys. -/
theorem comps_foldl_nodupKeys (outcomes : List (Except SatErr Component)) :
    ∀ (m0 : CompMap), NodupKeys m0 → NodupKeys (outcomes.foldl depStep m0) := by
  induction outcomes with
  | nil => intro m0 h; exact h
  | cons o rest ih =>
    intro m0 h
    rw [List.foldl_cons]
    refine ih (depStep m0 o) ?_
    cases o with
    | error e => exact h
    | ok d =>
      by_cases hdz : d.nonzero = true
      · rw [show depStep m0 (Except.ok d) = insertOv m0 d.getName d by
          simp [depStep, hdz]]
        exact nodupKeys_insertOv _ _ _ h
      · rw [show depStep m0 (Except.ok d) = m0 by simp [depStep, hdz]]
        exact h

/-- `d.update({})` is the identity. -/
theorem updAll_nil (m : CompMap) : updAll m [] = m := rfl

/-- One step of `d.update(dNew)`. -/
theorem updAll_cons (m : CompMap) (k1 : String) (v1 : Component) (rest : CompMap) :
    updAll m ((k1, v1) :: rest) = updAll (insertOv m k1 v1) rest := rfl

/-- `d.update(dNew)` preserves a binding every `dNew` entry of the same key
agrees with. -/
theorem lookupMap_updAll_preserve :
    ∀ (mNew m : CompMap) (k : String) (c : Component),
    lookupMap m k = some c →
    (∀ kv ∈ mNew, kv.1 = k → kv.2 = c) →
    lookupMap (updAll m mNew) k = some c := by
  intro mNew
  induction mNew with
  | nil => intro m k c h _; exact h
  | cons kv rest ih =>
    obtain ⟨k1, v1⟩ := kv
    intro m k c h hcond
    rw [updAll_cons]
    refine ih (insertOv m k1 v1) k c ?_
      (fun kv' h' he => hcond kv' (List.mem_cons_of_mem _ h') he)
    by_cases hk : k1 = k
    · have hv : v1 = c := hcond (k1, v1) (List.mem_cons_self _ _) hk
      rw [hk, hv]
      exact lookupMap_insertOv_self m k c
    · rw [lookupMap_insertOv_ne m k1 v1 k hk]
      exact h

/-- Every binding after `d.update(dNew)` comes from `d` or from `dNew`. -/
theorem lookupMap_updAll_cases :
    ∀ (mNew m : CompMap) (k : String) (c : Component),
    lookupMap (updAll m mNew) k = some c →
    lookupMap m k = some c ∨ (k, c) ∈ mNew := by
  intro mNew
  induction mNew with
  | nil => intro m k c h; exact Or.inl h
  | cons kv rest ih =>
    obtain ⟨k1, v1⟩ := kv
    intro m k c h
    rw [updAll_cons] at h
    rcases ih (insertOv m k1 v1) k c h with h1 | h1
    · by_cases hk : k1 = k
      · rw [hk] at h1
        rw [lookupMap_insertOv_self] at h1
        have hv : v1 = c := Option.some_inj.1 h1
        right
        rw [← hv, ← hk]
        exact List.mem_cons_self _ _
      · rw [lookupMap_insertOv_ne m k1 v1 k hk] at h1
        exact Or.inl h1
    · exact Or.inr (List.mem_cons_of_mem _ h1)

/-- A key present before `d.update(dNew)` is still present afterwards. -/
theorem lookupMap_updAll_isSome :
    ∀ (mNew m : CompMap) (k : String),
    (lookupMap m k).isSome = true → (lookupMap (updAll m mNew) k).isSome = true := by
  intro mNew
  induction mNew with
  | nil => intro m k h; exact h
  | cons kv rest ih =>
    obtain ⟨k1, v1⟩ := kv
    intro m k h
    rw [updAll_cons]
    exact ih (insertOv m k1 v1) k (lookupMap_insertOv_isSome m k1 v1 k h)

/-- A binding of a unique-keyed `dNew` wins in `d.update(dNew)`. -/
theorem lookupMap_updAll_right :
    ∀ (mNew m : CompMap) (k : String) (c : Component),
    NodupKeys mNew → lookupMap mNew k = some c →
    lookupMap (updAll m mNew) k = some c := by
  intro mNew
  induction mNew with
  | nil => intro m k c _ h; simp [lookupMap] at h
  | cons kv rest ih =>
    obtain ⟨k1, v1⟩ := kv
    intro m k c hnd h
    unfold NodupKeys at hnd
    simp only [List.map_cons, List.nodup_cons] at hnd
    rw [updAll_cons]
    by_cases hk : k1 = k
    · have hsome : lookupMap ((k1, v1) :: rest) k = some v1 := by
        simp [lookupMap, hk]
      rw [hsome] at h
      have hv : v1 = c := Option.some_inj.1 h
      refine lookupMap_updAll_preserve rest (insertOv m k1 v1) k c ?_ ?_
      · rw [hk, hv]
        exact lookupMap_insertOv_self m k c
      · intro kv' h' he
        exfalso
        apply hnd.1
        have hm : kv'.1 ∈ rest.map Prod.fst := List.mem_map_of_mem Prod.fst h'
        rw [he, ← hk] at hm
        exact hm
    · simp only [lookupMap, if_neg hk] at h
      exact ih (insertOv m k1 v1) k c hnd.2 h

/-- `d.update(dNew)` keeps the mapping name-keyed when every `dNew` entry
is truthy and keyed by its declared name. -/
theorem availInv_updAll (m mNew : CompMap) (hav : AvailInv m)
    (hNew : ∀ kv ∈ mNew, kv.2.nonzero = true ∧ kv.2.getName = kv.1) :
    AvailInv (updAll m mNew) := by
  intro k c hl
  rcases lookupMap_updAll_cases mNew m k c hl with h1 | h1
  · exact hav k c h1
  · have hp := hNew (k, c) h1
    exact ⟨hp.1, hp.2⟩

/-- If no name of the resolution order is a `targetDependencies` key, the
first-match loop finds nothing. -/
theorem firstTargetDeps_eq_none (td : List (String × List (String × String))) :
    ∀ order, (∀ a ∈ order, lookupTargetDeps td a = none) →
    firstTargetDeps order td = none := by
  intro order
  induction order with
  | nil => intro _; rfl
  | cons t rest ih =>
    intro h
    have ht := h t (List.mem_cons_self _ _)
    rw [firstTargetDeps, ht]
    exact ih (fun a ha => h a (List.mem_cons_of_mem _ ha))

/-- The first-match loop returns the block of the first resolution-order
name that is a `targetDependencies` key, ignoring anything after it. -/
theorem firstTargetDeps_first_match (td : List (String × List (String × String))) :
    ∀ (pre : List String) (a : String) (post : List String) (extra : List (String × String)),
    (∀ b ∈ pre, lookupTargetDeps td b = none) →
    lookupTargetDeps td a = some extra →
    firstTargetDeps (pre ++ a :: post) td = some extra := by
  intro pre
  induction pre with
  | nil =>
    intro a post extra _ ha
    rw [List.nil_append, firstTargetDeps, ha]
  | cons b rest ih =>
    intro a post extra h ha
    have hb := h b (List.mem_cons_self _ _)
    rw [List.cons_append, firstTargetDeps, hb]
    exact ih a post extra (fun x hx => h x (List.mem_cons_of_mem _ hx)) ha

/-- Characterization of `satisfyDependencies` once the spec list is known:
the whole call is the record built from the per-spec satisfier outcomes. -/
theorem satisfyDependencies_eq (sat : Satisfier) (self : Component) (avail : CompMap)
    (upd : Bool) (tgt : Option Target) (specs : List (String × String))
    (hspecs : getDependencySpecs self tgt = Except.ok specs) :
    satisfyDependencies sat self avail upd tgt = Except.ok
      { components := (specs.map (fun s =>
            satisfyDep sat (modulesPath self) avail (updateModeArg upd) s)).foldl depStep [],
        errors := depErrors (specs.map (fun s =>
            satisfyDep sat (modulesPath self) avail (updateModeArg upd) s)),
        selfAfter := { self with
                         installed_dependencies := true,
                         dependencies_failed := self.dependencies_failed
                           || !(depErrors (specs.map (fun s =>
                               satisfyDep sat (modulesPath self) avail
                                 (updateModeArg upd) s))).isEmpty },
        calls := specs.map (fun s =>
          { caller := self, name := s.1, ver_req := s.2,
            modules_path := modulesPath self, update_mode := updateModeArg upd }) } := by
  simp only [satisfyDependencies, hspecs]

/-- A component passing the recursion filter is truthy. -/
theorem recursionFilter_true_nonzero (avail : CompMap) (u : Bool) (c : Component)
    (h : recursionFilter avail u c = true) : c.nonzero = true := by
  cases hz : c.nonzero with
  | true => rfl
  | false => simp [recursionFilter, hz] at h

/-- A component passing the recursion filter is not yet in the shared
mapping the filter was checked against. -/
theorem recursionFilter_true_not_avail (avail : CompMap) (u : Bool) (c : Component)
    (h : recursionFilter avail u c = true) : lookupMap avail c.getName = none := by
  cases hl : lookupMap avail c.getName with
  | none => rfl
  | some d => simp [recursionFilter, hl] at h

/-- A component passing the recursion filter is not symlink-installed,
whatever the mode and whatever `outdated()` returns. -/
theorem recursionFilter_true_not_linked (avail : CompMap) (u : Bool) (c : Component)
    (h : recursionFilter avail u c = true) : c.installed_linked = false := by
  cases hL : c.installed_linked with
  | false => rfl
  | true => simp [recursionFilter, hL] at h

/-- Every satisfier call issued by one `satisfyDependencies` level carries
that level's component as the caller. -/
theorem satisfyDependencies_calls_caller (sat : Satisfier) (self : Component)
    (avail : CompMap) (upd : Bool) (tgt : Option Target) (r : DepResult)
    (hr : satisfyDependencies sat self avail upd tgt = Except.ok r) :
    ∀ ev ∈ r.calls, ev.caller = self := by
  cases hspec : getDependencySpecs self tgt with
  | error e => simp [satisfyDependencies, hspec] at hr
  | ok specs =>
    rw [satisfyDependencies_eq sat self avail upd tgt specs hspec] at hr
    obtain rfl : _ = r := Except.ok.inj hr
    intro ev hev
    dsimp only at hev
    rcases List.mem_map.1 hev with ⟨s, _, hev2⟩
    rw [← hev2]

/-- The sequential recursion loop touches only non-linked components and
issues satisfier calls only on behalf of non-linked components, provided
`f` has that property and every component in the work list is non-linked. -/
theorem recurseLoop_linked (f : Component → CompMap → Option (Except Exn RecResult))
    (Hf : ∀ c av r, c.installed_linked = false → f c av = some (Except.ok r) →
      (∀ x ∈ r.recursed, x.installed_linked = false)
      ∧ (∀ ev ∈ r.calls, ev.caller.installed_linked = false)) :
    ∀ (need : List Component) (avail availF : CompMap) (errs : List RErr)
      (recs : List Component) (calls : List CallEv),
    (∀ c ∈ need, c.installed_linked = false) →
    recurseLoop f need avail = some (Except.ok (availF, errs, recs, calls)) →
    (∀ x ∈ recs, x.installed_linked = false)
    ∧ (∀ ev ∈ calls, ev.caller.installed_linked = false) := by
  intro need
  induction need with
  | nil =>
    intro avail availF errs recs calls _ h
    simp only [recurseLoop, Option.some.injEq, Except.ok.injEq, Prod.mk.injEq] at h
    obtain ⟨h1, h2, h3, h4⟩ := h
    subst h3
    subst h4
    exact ⟨by simp, by simp⟩
  | cons c rest ih =>
    intro avail availF errs recs calls hneed h
    cases hf : f c avail with
    | none => simp [recurseLoop, hf] at h
    | some res =>
      cases res with
      | error e => simp [recurseLoop, hf] at h
      | ok r =>
        cases hrec : recurseLoop f rest (updAll r.availAfter r.components) with
        | none => simp [recurseLoop, hf, hrec] at h
        | some res2 =>
          cases res2 with
          | error e => simp [recurseLoop, hf, hrec] at h
          | ok tup =>
            obtain ⟨availF2, tup2⟩ := tup
            obtain ⟨errs2, tup3⟩ := tup2
            obtain ⟨recs2, calls2⟩ := tup3
            simp only [recurseLoop, hf, hrec, Option.some.injEq, Except.ok.injEq,
              Prod.mk.injEq] at h
            obtain ⟨hA, hE, hR, hC⟩ := h
            subst hR
            subst hC
            have hc0 : c.installed_linked = false := hneed c (List.mem_cons_self _ _)
            have hchild := Hf c avail r hc0 hf
            have hrest := ih (updAll r.availAfter r.components) availF2 errs2 recs2 calls2
              (fun x hx => hneed x (List.mem_cons_of_mem _ hx)) hrec
            constructor
            · intro x hx
              rcases List.mem_cons.1 hx with h1 | h1
              · rw [h1]; exact hc0
              · rcases List.mem_append.1 h1 with h2 | h2
                · exact hchild.1 x h2
                · exact hrest.1 x h2
            · intro ev hev
              rcases List.mem_append.1 hev with h1 | h1
              · exact hchild.2 ev h1
              · exact hrest.2 ev h1

/-- Fuel induction for the linked-component property of the whole
recursive resolution. -/
theorem satisfyDependenciesRecursive_linked_aux (sat : Satisfier) (upd : Bool)
    (tgt : Option Target) :
    ∀ (fuel : Nat) (self : Component) (avail : CompMap) (res : RecResult),
    self.installed_linked = false →
    satisfyDependenciesRecursive sat fuel self avail upd tgt = some (Except.ok res) →
    (∀ x ∈ res.recursed, x.installed_linked = false)
    ∧ (∀ ev ∈ res.calls, ev.caller.installed_linked = false) := by
  intro fuel
  induction fuel with
  | zero =>
    intro self avail res _ h
    simp [satisfyDependenciesRecursive] at h
  | succ fuel ih =>
    intro self avail res hself h
    cases hdep : satisfyDependencies sat self avail upd tgt with
    | error e => simp [satisfyDependenciesRecursive, hdep] at h
    | ok dr =>
      cases hrec : recurseLoop (fun c av => satisfyDependenciesRecursive sat fuel c av upd tgt)
          ((mapValues dr.components).filter (recursionFilter avail upd))
          (updAll avail dr.components) with
      | none => simp [satisfyDependenciesRecursive, hdep, hrec] at h
      | some res2 =>
        cases res2 with
        | error e => simp [satisfyDependenciesRecursive, hdep, hrec] at h
        | ok tup =>
          obtain ⟨availF, tup2⟩ := tup
          obtain ⟨errs, tup3⟩ := tup2
          obtain ⟨recs, calls⟩ := tup3
          simp only [satisfyDependenciesRecursive, hdep, hrec, Option.some.injEq,
            Except.ok.injEq] at h
          subst h
          have hloop := recurseLoop_linked
            (fun c av => satisfyDependenciesRecursive sat fuel c av upd tgt)
            (fun c av r hc hf => ih c av r hc hf)
            ((mapValues dr.components).filter (recursionFilter avail upd))
            (updAll avail dr.components) availF errs recs calls
            (fun c hc =>
              recursionFilter_true_not_linked avail upd c (List.mem_filter.1 hc).2) hrec
          constructor
          · exact hloop.1
          · intro ev hev
            rcases List.mem_append.1 hev with h1 | h1
            · have hcall := satisfyDependencies_calls_caller sat self avail upd tgt dr hdep ev h1
              rw [hcall]
              exact hself
            · exact hloop.2 ev h1

/-- Level soundness: under the satisfier contract and a name-keyed shared
mapping, the mapping a `satisfyDependencies` level returns has unique keys,
is name-keyed with truthy values, and agrees with the shared mapping on
every name already bound there (the satisfier reused those entries). -/
theorem satisfyDependencies_level_sound (sat : Satisfier) (self : Component)
    (avail : CompMap) (upd : Bool) (tgt : Option Target) (r : DepResult)
    (hre : SatReuses sat) (hfr : SatFreshNamed sat) (hav : AvailInv avail)
    (hr : satisfyDependencies sat self avail upd tgt = Except.ok r) :
    NodupKeys r.components
    ∧ (∀ kv ∈ r.components, kv.2.nonzero = true ∧ kv.2.getName = kv.1)
    ∧ (∀ k c, lookupMap r.components k = some c →
        ∀ c0, lookupMap avail k = some c0 → c = c0) := by
  cases hspec : getDependencySpecs self tgt with
  | error e => simp [satisfyDependencies, hspec] at hr
  | ok specs =>
    rw [satisfyDependencies_eq sat self avail upd tgt specs hspec] at hr
    obtain rfl : _ = r := Except.ok.inj hr
    refine ⟨?_, ?_, ?_⟩
    · exact comps_foldl_nodupKeys _ [] nodupKeys_nil
    · intro kv hkv
      dsimp only at hkv
      rcases comps_foldl_entries _ [] kv hkv with h1 | h1
      · simp at h1
      · exact h1
    · intro k c hl c0 h0
      dsimp only at hl
      rcases comps_foldl_lookup _ [] k c hl with h1 | h1
      · simp [lookupMap] at h1
      · obtain ⟨hm, hz, hn⟩ := h1
        rcases List.mem_map.1 hm with ⟨s, _, hok⟩
        have hok2 : sat s.1 s.2 (modulesPath self) avail (updateModeArg upd)
            = Except.ok c := hok
        cases hsa : lookupMap avail s.1 with
        | some c1 =>
          have hre2 := hre s.1 s.2 (modulesPath self) avail (updateModeArg upd) c1 hsa
          rw [hre2] at hok2
          have hc1 : c = c1 := (Except.ok.inj hok2).symm
          have hnk := hav s.1 c1 hsa
          have hks : k = s.1 := by
            rw [← hn, hc1, hnk.2]
          rw [hks] at h0
          rw [h0] at hsa
          rw [hc1]
          exact (Option.some_inj.1 hsa).symm
        | none =>
          have hnn := hfr s.1 s.2 (modulesPath self) avail (updateModeArg upd) c hsa hok2 hz
          rw [← hn, hnn] at h0
          rw [hsa] at h0
          cases h0

/-- The `need_recursion` loop maintains the run invariant: assuming each
recursive call does (`Hf`), the shared mapping only grows and stays
name-keyed, each recursed component either came from this work list or was
unavailable when the loop started, recursed names end up available, and no
name is recursed twice. -/
theorem recurseLoop_bundle (f : Component → CompMap → Option (Except Exn RecResult))
    (Hf : ∀ c av r, AvailInv av → f c av = some (Except.ok r) → RecBundle av r) :
    ∀ (need : List Component) (avail availF : CompMap) (errs : List RErr)
      (recs : List Component) (calls : List CallEv),
    AvailInv avail →
    (∀ c ∈ need, (lookupMap avail c.getName).isSome = true) →
    ((need.map Component.getName).Nodup) →
    recurseLoop f need avail = some (Except.ok (availF, errs, recs, calls)) →
    LoopBundle need avail availF recs := by
  intro need
  induction need with
  | nil =>
    intro avail availF errs recs calls hinv _ _ h
    simp only [recurseLoop, Option.some.injEq, Except.ok.injEq, Prod.mk.injEq] at h
    obtain ⟨h1, h2, h3, h4⟩ := h
    subst h1
    subst h3
    refine ⟨fun k c hk => hk, hinv, by simp, by simp, by simp⟩
  | cons c rest ih =>
    intro avail availF errs recs calls hinv hneed1 hneed2 h
    cases hf : f c avail with
    | none => simp [recurseLoop, hf] at h
    | some res =>
      cases res with
      | error e => simp [recurseLoop, hf] at h
      | ok r =>
        cases hrec : recurseLoop f rest (updAll r.availAfter r.components) with
        | none => simp [recurseLoop, hf, hrec] at h
        | some res2 =>
          cases res2 with
          | error e => simp [recurseLoop, hf, hrec] at h
          | ok tup =>
            obtain ⟨availF2, tup2⟩ := tup
            obtain ⟨errs2, tup3⟩ := tup2
            obtain ⟨recs2, calls2⟩ := tup3
            simp only [recurseLoop, hf, hrec, Option.some.injEq, Except.ok.injEq,
              Prod.mk.injEq] at h
            obtain ⟨hA, hE, hR, hC⟩ := h
            subst hA
            subst hR
            obtain ⟨P1, P2, P3, P4, P5, P6, P7, P8⟩ := Hf c avail r hinv hf
            have pres2 : ∀ k c', lookupMap r.availAfter k = some c' →
                lookupMap (updAll r.availAfter r.components) k = some c' := by
              intro k c' hk
              refine lookupMap_updAll_preserve r.components r.availAfter k c' hk ?_
              intro kv hkv hke
              have h1 := lookupMap_of_mem_nodup r.components kv.1 kv.2 P3 hkv
              have h2 := P5 kv.1 kv.2 h1
              rw [hke] at h2
              exact Option.some_inj.1 (h2.symm.trans hk)
            have inv2 : AvailInv (updAll r.availAfter r.components) := by
              intro k c' hk
              rcases lookupMap_updAll_cases r.components r.availAfter k c' hk with h1 | h1
              · exact P2 k c' h1
              · have hp := P4 (k, c') h1
                exact ⟨hp.1, hp.2⟩
            have chain2 : ∀ k, (lookupMap avail k).isSome = true →
                (lookupMap (updAll r.availAfter r.components) k).isSome = true := by
              intro k hk
              obtain ⟨c', hc'⟩ := Option.isSome_iff_exists.1 hk
              have h1 := P1 k c' hc'
              have h2 := pres2 k c' h1
              rw [h2]
              rfl
            obtain ⟨Q1, Q2, Q3, Q4, Q5⟩ := ih (updAll r.availAfter r.components) availF2
              errs2 recs2 calls2 inv2
              (fun x hx => chain2 _ (hneed1 x (List.mem_cons_of_mem _ hx)))
              ((List.nodup_cons.1 (by simpa using hneed2)).2) hrec
            have chainF : ∀ k, (lookupMap (updAll r.availAfter r.components) k).isSome = true →
                (lookupMap availF2 k).isSome = true := by
              intro k hk
              obtain ⟨c', hc'⟩ := Option.isSome_iff_exists.1 hk
              have h1 := Q1 k c' hc'
              rw [h1]
              rfl
            have hcAvail : (lookupMap avail (Component.getName c)).isSome = true :=
              hneed1 c (List.mem_cons_self _ _)
            refine ⟨?_, Q2, ?_, ?_, ?_⟩
            · intro k c' hk
              exact Q1 k c' (pres2 k c' (P1 k c' hk))
            · intro x hx
              rcases List.mem_cons.1 hx with h1 | h1
              · left
                rw [h1]
                exact List.mem_cons_self _ _
              · rcases List.mem_append.1 h1 with h2 | h2
                · right
                  exact P6 x h2
                · rcases Q3 x h2 with h3 | h3
                  · left
                    exact List.mem_cons_of_mem _ h3
                  · cases hx2 : lookupMap avail x.getName with
                    | none => right; rfl
                    | some cx =>
                      exfalso
                      have := chain2 x.getName (by rw [hx2]; rfl)
                      rw [h3] at this
                      cases this
            · intro x hx
              rcases List.mem_cons.1 hx with h1 | h1
              · rw [h1]
                exact chainF _ (chain2 _ hcAvail)
              · rcases List.mem_append.1 h1 with h2 | h2
                · obtain ⟨c', hc'⟩ := Option.isSome_iff_exists.1 (P7 x h2)
                  have h3 := pres2 _ c' hc'
                  exact chainF _ (by rw [h3]; rfl)
                · exact Q4 x h2
            · simp only [List.map_cons, List.map_append, List.nodup_cons,
                List.nodup_append]
              refine ⟨?_, P8, Q5, ?_⟩
              · intro hmem
                rcases List.mem_append.1 hmem with h1 | h1
                · rcases List.mem_map.1 h1 with ⟨x, hx, hxe⟩
                  have h2 := P6 x hx
                  rw [hxe] at h2
                  rw [h2] at hcAvail
                  cases hcAvail
                · rcases List.mem_map.1 h1 with ⟨x, hx, hxe⟩
                  rcases Q3 x hx with h3 | h3
                  · have h4 : Component.getName x ∈ rest.map Component.getName :=
                      List.mem_map_of_mem _ h3
                    rw [hxe] at h4
                    exact (List.nodup_cons.1 (by simpa using hneed2)).1 h4
                  · have h4 := chain2 _ hcAvail
                    rw [← hxe] at h4
                    rw [h3] at h4
                    cases h4
              · intro a ha hb
                rcases List.mem_map.1 ha with ⟨x, hx, hxe⟩
                rcases List.mem_map.1 hb with ⟨y, hy, hye⟩
                rcases Q3 y hy with h3 | h3
                · have h4 := hneed1 y (List.mem_cons_of_mem _ h3)
                  rw [hye] at h4
                  have h5 := P6 x hx
                  rw [hxe] at h5
                  rw [h5] at h4
                  cases h4
                · obtain ⟨c', hc'⟩ := Option.isSome_iff_exists.1 (P7 x hx)
                  have h4 := pres2 _ c' hc'
                  rw [hxe] at h4
                  rw [hye] at h3
                  rw [h3] at h4
                  cases h4

/-- Fuel induction establishing the run invariant for every successful
`satisfyDependenciesRecursive` call under the satisfier contract. -/
theorem satisfyDependenciesRecursive_bundle (sat : Satisfier) (upd : Bool)
    (tgt : Option Target) (hre : SatReuses sat) (hfr : SatFreshNamed sat) :
    ∀ (fuel : Nat) (self : Component) (avail : CompMap) (res : RecResult),
    AvailInv avail →
    satisfyDependenciesRecursive sat fuel self avail upd tgt = some (Except.ok res) →
    RecBundle avail res := by
  intro fuel
  induction fuel with
  | zero =>
    intro self avail res _ h
    simp [satisfyDependenciesRecursive] at h
  | succ fuel ih =>
    intro self avail res hav h
    cases hdep : satisfyDependencies sat self avail upd tgt with
    | error e => simp [satisfyDependenciesRecursive, hdep] at h
    | ok dr =>
      cases hrec : recurseLoop (fun c av => satisfyDependenciesRecursive sat fuel c av upd tgt)
          ((mapValues dr.components).filter (recursionFilter avail upd))
          (updAll avail dr.components) with
      | none => simp [satisfyDependenciesRecursive, hdep, hrec] at h
      | some res2 =>
        cases res2 with
        | error e => simp [satisfyDependenciesRecursive, hdep, hrec] at h
        | ok tup =>
          obtain ⟨availF, tup2⟩ := tup
          obtain ⟨errs, tup3⟩ := tup2
          obtain ⟨recs, calls⟩ := tup3
          simp only [satisfyDependenciesRecursive, hdep, hrec, Option.some.injEq,
            Except.ok.injEq] at h
          subst h
          obtain ⟨L1, L2, L3⟩ :=
            satisfyDependencies_level_sound sat self avail upd tgt dr hre hfr hav hdep
          have pres1 : ∀ k c, lookupMap avail k = some c →
              lookupMap (updAll avail dr.components) k = some c := by
            intro k c hk
            refine lookupMap_updAll_preserve dr.components avail k c hk ?_
            intro kv hkv hke
            have hlk := lookupMap_of_mem_nodup dr.components kv.1 kv.2 L1 hkv
            refine L3 kv.1 kv.2 hlk c ?_
            rw [hke]
            exact hk
          have inv1 : AvailInv (updAll avail dr.components) :=
            availInv_updAll avail dr.components hav L2
          have hneed1 : ∀ c ∈ (mapValues dr.components).filter (recursionFilter avail upd),
              (lookupMap (updAll avail dr.components) c.getName).isSome = true := by
            intro c hc
            obtain ⟨hcm, _⟩ := List.mem_filter.1 hc
            rcases List.mem_map.1 hcm with ⟨kv, hkv, hkve⟩
            have he := L2 kv hkv
            have hlk := lookupMap_of_mem_nodup dr.components kv.1 kv.2 L1 hkv
            have h1 := lookupMap_updAll_right dr.components avail kv.1 kv.2 L1 hlk
            rw [← hkve, he.2, h1]
            rfl
          have hneed2 : (((mapValues dr.components).filter
              (recursionFilter avail upd)).map Component.getName).Nodup := by
            have hkeys : ((mapValues dr.components).map Component.getName)
                = dr.components.map Prod.fst := by
              rw [mapValues, List.map_map]
              refine List.map_congr_left ?_
              intro kv hkv
              exact (L2 kv hkv).2
            have hsub : List.Sublist
                (((mapValues dr.components).filter
                  (recursionFilter avail upd)).map Component.getName)
                ((mapValues dr.components).map Component.getName) :=
              (List.filter_sublist _).map _
            rw [hkeys] at hsub
            exact List.Nodup.sublist hsub L1
          obtain ⟨Q1, Q2, Q3, Q4, Q5⟩ := recurseLoop_bundle
            (fun c av => satisfyDependenciesRecursive sat fuel c av upd tgt)
            (fun c av r hi hf => ih c av r hi hf)
            ((mapValues dr.components).filter (recursionFilter avail upd))
            (updAll avail dr.components) availF errs recs calls
            inv1 hneed1 hneed2 hrec
          refine ⟨?_, Q2, L1, L2, ?_, ?_, Q4, Q5⟩
          · intro k c hk
            exact Q1 k c (pres1 k c hk)
          · intro k c hk
            dsimp only at hk
            exact Q1 k c (lookupMap_updAll_right dr.components avail k c L1 hk)
          · intro x hx
            rcases Q3 x hx with h1 | h1
            · exact recursionFilter_true_not_avail avail upd x (List.mem_filter.1 h1).2
            · cases hx2 : lookupMap avail x.getName with
              | none => rfl
              | some cx =>
                exfalso
                have h2 := pres1 _ cx hx2
                rw [h1] at h2
                cases h2

end Yotta

/-! ## Theorems -/

namespace Yotta

/-- C9: `bool(C)` is true iff the description was successfully read and its
version field yielded a usable `Version`; an invalid component is falsy no
matter what the other fields hold (they are universally quantified here),
construction is total (`Component.init` is a function, so it never raises),
and on failure the error is captured on the instance. -/
theorem component_truthiness_iff_description (path : String) (readResult : Except Exn Doc)
    (parseVersion : String → Except Exn Nat) (ip il : Bool) (latest : Option Nat) :
    ((Component.init path readResult parseVersion ip il latest).nonzero = true
       ↔ ∃ info vstr v, readResult = Except.ok info ∧ info.version = some vstr
           ∧ parseVersion vstr = Except.ok v)
    ∧ ((Component.init path readResult parseVersion ip il latest).nonzero = false
       → (Component.init path readResult parseVersion ip il latest).error.isSome = true) := by
  unfold Component.init Component.nonzero
  cases readResult with
  | error e => simp
  | ok info =>
    cases hv : info.version with
    | none => simp [hv]
    | some vstr =>
      cases hp : parseVersion vstr with
      | error e => simp [hv, hp]
      | ok v => simp [hv, hp]

/-- Witness for C9 at a concrete unreadable description. -/
theorem component_truthiness_iff_description_witness :
    ((Component.init "p" (Except.error (Exn.ioError "unreadable")) parseVerFixed false false
        none).nonzero = true
       ↔ ∃ info vstr v, (Except.error (Exn.ioError "unreadable") : Except Exn Doc)
           = Except.ok info ∧ info.version = some vstr ∧ parseVerFixed vstr = Except.ok v)
    ∧ ((Component.init "p" (Except.error (Exn.ioError "unreadable")) parseVerFixed false false
        none).nonzero = false
       → (Component.init "p" (Except.error (Exn.ioError "unreadable")) parseVerFixed false false
        none).error.isSome = true) :=
  component_truthiness_iff_description "p" (Except.error (Exn.ioError "unreadable"))
    parseVerFixed false false none

/-- C5: in update mode, a valid, not-yet-available, not-linked directly
resolved dependency passes the recursion filter iff `outdated()` is truthy
or its own dependencies were never installed. -/
theorem recursionFilter_update_rule (avail : CompMap) (c : Component)
    (hval : c.nonzero = true) (hnew : lookupMap avail c.getName = none)
    (hnl : c.installed_linked = false) :
    recursionFilter avail true c = (c.outdated.isSome || !c.installedDependencies) := by
  simp [recursionFilter, hval, hnew, hnl]

/-- Witness for C5: an outdated component with dependencies installed is
still selected for recursion in update mode. -/
theorem recursionFilter_update_rule_witness :
    cUpd.nonzero = true ∧ lookupMap [] cUpd.getName = none ∧ cUpd.installed_linked = false
    ∧ recursionFilter [] true cUpd = (cUpd.outdated.isSome || !cUpd.installedDependencies)
    ∧ recursionFilter [] true cUpd = true :=
  ⟨by decide, by decide, by decide,
   recursionFilter_update_rule [] cUpd (by decide) (by decide) (by decide), by decide⟩

/-- C6: in plain install mode, a valid, not-yet-available, not-linked
directly resolved dependency passes the recursion filter iff it was not
installed previously and its dependencies were not installed; in
particular, a component already on disk before the run is never selected,
whatever `latest_suitable_version` holds. -/
theorem recursionFilter_install_rule (avail : CompMap) (c : Component)
    (hval : c.nonzero = true) (hnew : lookupMap avail c.getName = none)
    (hnl : c.installed_linked = false) :
    recursionFilter avail false c = (!c.installedPreviously && !c.installedDependencies)
    ∧ (c.installedPreviously = true → recursionFilter avail false c = false) := by
  constructor
  · simp [recursionFilter, hval, hnew, hnl]
  · intro hp
    have hp' : c.installed_previously = true := hp
    simp [recursionFilter, hval, hnew, hnl, Component.installedPreviously,
      Component.installedDependencies, hp']

/-- Witness for C6: a previously installed component with installed
dependencies and a strictly newer available version is not selected for
recursion in plain install mode. -/
theorem recursionFilter_install_rule_witness :
    cPrev.nonzero = true ∧ lookupMap [] cPrev.getName = none
    ∧ cPrev.installed_linked = false ∧ cPrev.outdated.isSome = true
    ∧ (recursionFilter [] false cPrev = (!cPrev.installedPreviously && !cPrev.installedDependencies)
       ∧ (cPrev.installedPreviously = true → recursionFilter [] false cPrev = false)) :=
  ⟨by decide, by decide, by decide, by decide,
   recursionFilter_install_rule [] cPrev (by decide) (by decide) (by decide)⟩

/-- C1: under the documented satisfier contract (reuse of already-available
names, requested-name-keyed fresh installs) and a name-keyed starting
mapping: once a name is bound in the shared `available_components` mapping
it is never rebound for the rest of the run (so the component resolved at
the shallowest depth wins everywhere); each level's results persist into
the final mapping; every component recursed into was not available at the
start of the enclosing call (deeper duplicate requests are dropped); and no
name is recursed into twice, so the run produces at most one resolved
component per name. -/
theorem satisfyDependenciesRecursive_shallowest_wins
    (sat : Satisfier) (fuel : Nat) (self : Component) (avail : CompMap)
    (upd : Bool) (tgt : Option Target) (res : RecResult)
    (hre : SatReuses sat) (hfr : SatFreshNamed sat) (hav : AvailInv avail)
    (hrun : satisfyDependenciesRecursive sat fuel self avail upd tgt
      = some (Except.ok res)) :
    (∀ k c, lookupMap avail k = some c → lookupMap res.availAfter k = some c)
    ∧ (∀ k c, lookupMap res.components k = some c → lookupMap res.availAfter k = some c)
    ∧ (∀ x ∈ res.recursed, lookupMap avail x.getName = none)
    ∧ (res.recursed.map Component.getName).Nodup := by
  obtain ⟨R1, _, _, _, R5, R6, _, R8⟩ :=
    satisfyDependenciesRecursive_bundle sat upd tgt hre hfr fuel self avail res hav hrun
  exact ⟨R1, R5, R6, R8⟩

/-- Witness for C1 at a concrete run: a contract-obeying satisfier, the
empty initial mapping, and a root with one dependency. -/
theorem satisfyDependenciesRecursive_shallowest_wins_witness :
    SatReuses satW ∧ SatFreshNamed satW ∧ AvailInv ([] : CompMap)
    ∧ (∃ res, satisfyDependenciesRecursive satW 2 rootW [] false none
          = some (Except.ok res)
        ∧ ((∀ k c, lookupMap [] k = some c → lookupMap res.availAfter k = some c)
           ∧ (∀ k c, lookupMap res.components k = some c →
               lookupMap res.availAfter k = some c)
           ∧ (∀ x ∈ res.recursed, lookupMap ([] : CompMap) x.getName = none)
           ∧ (res.recursed.map Component.getName).Nodup)) := by
  have hre : SatReuses satW := by
    intro n vr mp m um c h
    simp [satW, h]
  have hfr : SatFreshNamed satW := by
    intro n vr mp m um d hnone hok _
    simp [satW, hnone] at hok
    rw [← hok]
    rfl
  have hav : AvailInv ([] : CompMap) := by
    intro k c h
    simp [lookupMap] at h
  exact ⟨hre, hfr, hav,
    ⟨_, rfl, satisfyDependenciesRecursive_shallowest_wins satW 2 rootW [] false none _
      hre hfr hav rfl⟩⟩

/-- C2: in a resolution run started from a non-linked component, no
symlink-installed component returned by any level's `satisfyDependencies`
is ever recursed into (whatever its `outdated()` result), and every
satisfier invocation of the run — the only place the updateMode directive
is ever passed on — is issued on behalf of a non-linked component, so the
dependencies of a symlink-installed component are never satisfied (with or
without updateMode) by this run. -/
theorem satisfyDependenciesRecursive_skips_linked
    (sat : Satisfier) (fuel : Nat) (self : Component) (avail : CompMap)
    (upd : Bool) (tgt : Option Target) (res : RecResult)
    (hself : self.installed_linked = false)
    (hrun : satisfyDependenciesRecursive sat fuel self avail upd tgt
      = some (Except.ok res)) :
    (∀ x ∈ res.recursed, x.installed_linked = false)
    ∧ (∀ ev ∈ res.calls, ev.caller.installed_linked = false) :=
  satisfyDependenciesRecursive_linked_aux sat upd tgt fuel self avail res hself hrun

/-- Witness for C2: the only dependency resolves to a symlinked component
that is valid, outdated, and without installed dependencies, in update
mode; it still is not recursed into. -/
theorem satisfyDependenciesRecursive_skips_linked_witness :
    rootL.installed_linked = false
    ∧ linkedComp.installed_linked = true
    ∧ linkedComp.outdated.isSome = true
    ∧ (∃ res, satisfyDependenciesRecursive satLinked 2 rootL [] true none
          = some (Except.ok res)
        ∧ lookupMap res.components "L" = some linkedComp
        ∧ res.recursed = []
        ∧ ((∀ x ∈ res.recursed, x.installed_linked = false)
           ∧ (∀ ev ∈ res.calls, ev.caller.installed_linked = false))) :=
  ⟨rfl, rfl, rfl,
   ⟨_, rfl, rfl, rfl,
    satisfyDependenciesRecursive_skips_linked satLinked 2 rootL [] true none _ rfl rfl⟩⟩

/-- C3 (code bug): on a valid root whose description document has no
`dependencies` key, `satisfyDependenciesRecursive` does not return an empty
result: `getDependencySpecs` indexes the missing key and the `KeyError`
propagates uncaught out of the whole call. -/
theorem satisfyDependenciesRecursive_missing_deps_key_raises :
    satisfyDependenciesRecursive satRefuse 4 rootNoDeps [] false none
      = some (Except.error (Exn.keyError "dependencies"))
    ∧ rootNoDeps.nonzero = true := ⟨rfl, rfl⟩

/-- C8 counterexample: a specifier with no comma makes `satisfyTarget`
raise a `ValueError` (from unpacking `split(',', 1)`) past its boundary
instead of returning an empty target plus a collected error. -/
theorem satisfyTarget_no_comma_raises :
    satisfyTarget tgtSatRefuse compT8 "sometarget" false = Except.error Exn.valueError := rfl

/-- C8 (amended): for every specifier that does contain a comma, a
satisfier failure (which by the target-satisfier contract is a
`TargetUnavailable` error) is caught and returned as an absent target plus
the collected error, and a satisfier success is returned as the target with
no errors; nothing is raised in either case. -/
theorem satisfyTarget_with_comma_never_raises
    (satT : TargetSatisfier) (self : Component) (spec : String) (upd : Bool)
    (nm rest : String) (hsplit : splitOnceComma spec = some (nm, rest)) :
    (∀ t, satT nm rest (targetsPath self) (updateModeArg upd) = Except.ok t →
        satisfyTarget satT self spec upd = Except.ok (some t, []))
    ∧ (∀ e, satT nm rest (targetsPath self) (updateModeArg upd) = Except.error e →
        satisfyTarget satT self spec upd = Except.ok (none, [e])) := by
  constructor
  · intro t ht
    simp [satisfyTarget, hsplit, ht]
  · intro e he
    simp [satisfyTarget, hsplit, he]

/-- C7: `getDependencySpecs` returns the declared `dependencies` pairs in
declaration order; with a target, the extra specs of exactly the first
resolution-order ancestor name that is a `targetDependencies` key are
appended (later matching ancestors are ignored), and if no ancestor
matches, or there is no `targetDependencies` map, the plain list is
returned unchanged. -/
theorem getDependencySpecs_target_merge (c : Component) (info : Doc)
    (deps : List (String × String)) (t : Target)
    (hinfo : c.component_info = some info) (hdeps : info.dependencies = some deps) :
    getDependencySpecs c none = Except.ok deps
    ∧ (info.targetDependencies = none → getDependencySpecs c (some t) = Except.ok deps)
    ∧ (∀ td, info.targetDependencies = some td →
        ((∀ a ∈ t.dependencyResolutionOrder, lookupTargetDeps td a = none) →
          getDependencySpecs c (some t) = Except.ok deps)
        ∧ (∀ pre a post extra, t.dependencyResolutionOrder = pre ++ a :: post →
            (∀ b ∈ pre, lookupTargetDeps td b = none) →
            lookupTargetDeps td a = some extra →
            getDependencySpecs c (some t) = Except.ok (deps ++ extra))) := by
  refine ⟨?_, ?_, ?_⟩
  · simp [getDependencySpecs, hinfo, hdeps]
  · intro htd
    simp [getDependencySpecs, hinfo, hdeps, htd]
  · intro td htd
    constructor
    · intro hnone
      have hf := firstTargetDeps_eq_none td t.dependencyResolutionOrder hnone
      simp [getDependencySpecs, hinfo, hdeps, htd, hf]
    · intro pre a post extra horder hpre ha
      have hf := firstTargetDeps_first_match td pre a post extra hpre ha
      simp [getDependencySpecs, hinfo, hdeps, htd, horder, hf]

/-- Witness for C7: with two matching ancestors, only the block of the
first (`"linux"`) is appended, and the plain list is unchanged without a
target. -/
theorem getDependencySpecs_target_merge_witness :
    comp7.component_info = some doc7
    ∧ doc7.dependencies = some [("A", "*")]
    ∧ target7.dependencyResolutionOrder = ["x86-linux"] ++ "linux" :: ["generic"]
    ∧ (∀ b ∈ ["x86-linux"],
        lookupTargetDeps [("linux", [("B", "^2.0.0")]), ("generic", [("C", "*")])] b = none)
    ∧ lookupTargetDeps [("linux", [("B", "^2.0.0")]), ("generic", [("C", "*")])] "linux"
        = some [("B", "^2.0.0")]
    ∧ lookupTargetDeps [("linux", [("B", "^2.0.0")]), ("generic", [("C", "*")])] "generic"
        = some [("C", "*")]
    ∧ getDependencySpecs comp7 (some target7) = Except.ok [("A", "*"), ("B", "^2.0.0")]
    ∧ getDependencySpecs comp7 none = Except.ok [("A", "*")] := by
  refine ⟨rfl, rfl, rfl, by decide, rfl, rfl, ?_, ?_⟩
  · exact ((getDependencySpecs_target_merge comp7 doc7 [("A", "*")] target7 rfl rfl).2.2
      [("linux", [("B", "^2.0.0")]), ("generic", [("C", "*")])] rfl).2
      ["x86-linux"] "linux" ["generic"] [("B", "^2.0.0")] rfl (by decide) rfl
  · exact (getDependencySpecs_target_merge comp7 doc7 [("A", "*")] target7 rfl rfl).1

/-- C10: every binding of the mapping returned by `satisfyDependencies` is
a truthy satisfier result keyed by the name declared in its own description
document (not by the requested spec name), and when every spec's satisfier
call succeeds the error list is empty even if some returned components are
falsy — falsy components are dropped silently. -/
theorem satisfyDependencies_name_keyed_and_silent_drop
    (sat : Satisfier) (self : Component) (avail : CompMap) (upd : Bool)
    (tgt : Option Target) (specs : List (String × String)) (r : DepResult)
    (hspecs : getDependencySpecs self tgt = Except.ok specs)
    (hr : satisfyDependencies sat self avail upd tgt = Except.ok r) :
    (∀ k c, lookupMap r.components k = some c →
        c.nonzero = true ∧ c.getName = k
        ∧ ∃ s ∈ specs, sat s.1 s.2 (modulesPath self) avail (updateModeArg upd)
            = Except.ok c)
    ∧ ((∀ s ∈ specs, ∃ d, sat s.1 s.2 (modulesPath self) avail (updateModeArg upd)
            = Except.ok d) → r.errors = []) := by
  rw [satisfyDependencies_eq sat self avail upd tgt specs hspecs] at hr
  obtain rfl : _ = r := Except.ok.inj hr
  constructor
  · intro k c hl
    dsimp only at hl
    rcases comps_foldl_lookup _ _ _ _ hl with h1 | h1
    · simp [lookupMap] at h1
    · obtain ⟨hmem, hz, hn⟩ := h1
      refine ⟨hz, hn, ?_⟩
      rcases List.mem_map.1 hmem with ⟨s, hs, hok⟩
      exact ⟨s, hs, hok⟩
  · intro hall
    dsimp only [depErrors]
    rw [List.filterMap_eq_nil_iff]
    intro o ho
    rcases List.mem_map.1 ho with ⟨s, hs, hso⟩
    rcases hall s hs with ⟨d, hd⟩
    have : o = Except.ok d := by
      rw [← hso]
      exact hd
    rw [this]

/-- Witness for C10: the spec name `"req"` resolves to a component declared
as `"real"` (keyed by the declared name), and the falsy result for `"bad"`
is dropped with no error recorded. -/
theorem satisfyDependencies_name_keyed_and_silent_drop_witness :
    getDependencySpecs root10 none = Except.ok [("req", "*"), ("bad", "*")]
    ∧ (∃ r, satisfyDependencies sat10 root10 [] false none = Except.ok r
        ∧ r.components = [("real", compReal)]
        ∧ r.errors = []
        ∧ ((∀ k c, lookupMap r.components k = some c →
              c.nonzero = true ∧ c.getName = k
              ∧ ∃ s ∈ [("req", "*"), ("bad", "*")],
                  sat10 s.1 s.2 (modulesPath root10) [] (updateModeArg false) = Except.ok c)
           ∧ ((∀ s ∈ [("req", "*"), ("bad", "*")],
                ∃ d, sat10 s.1 s.2 (modulesPath root10) [] (updateModeArg false)
                  = Except.ok d) → r.errors = []))) :=
  ⟨rfl, ⟨_, rfl, rfl, rfl,
    satisfyDependencies_name_keyed_and_silent_drop sat10 root10 [] false none
      [("req", "*"), ("bad", "*")] _ rfl rfl⟩⟩

/-- C4: when the satisfier fails with `ComponentUnavailable` for one spec,
`satisfyDependencies` still returns normally (no exception propagates): the
error is in the returned list, `dependencies_failed` is set on this
component, the failed name is absent from the mapping (no sibling having
declared that name), every sibling spec was still passed to the satisfier,
and every truthy sibling success is present in the mapping. -/
theorem satisfyDependencies_unavailable_isolated
    (sat : Satisfier) (self : Component) (avail : CompMap) (upd : Bool)
    (tgt : Option Target) (specs : List (String × String))
    (n vr : String) (e : SatErr)
    (hspecs : getDependencySpecs self tgt = Except.ok specs)
    (hmem : (n, vr) ∈ specs)
    (hfail : sat n vr (modulesPath self) avail (updateModeArg upd) = Except.error e) :
    ∃ r, satisfyDependencies sat self avail upd tgt = Except.ok r
    ∧ RErr.unavailable e ∈ r.errors
    ∧ r.selfAfter.dependencies_failed = true
    ∧ ((∀ s ∈ specs, ∀ d, sat s.1 s.2 (modulesPath self) avail (updateModeArg upd)
          = Except.ok d → d.nonzero = true → d.getName ≠ n) →
        lookupMap r.components n = none)
    ∧ r.calls = specs.map (fun s =>
        { caller := self, name := s.1, ver_req := s.2,
          modules_path := modulesPath self, update_mode := updateModeArg upd })
    ∧ (∀ s ∈ specs, ∀ d, sat s.1 s.2 (modulesPath self) avail (updateModeArg upd)
          = Except.ok d → d.nonzero = true →
        (lookupMap r.components d.getName).isSome = true) := by
  have hout : Except.error e ∈ specs.map (fun s =>
      satisfyDep sat (modulesPath self) avail (updateModeArg upd) s) := by
    have hm := List.mem_map_of_mem
      (fun s => satisfyDep sat (modulesPath self) avail (updateModeArg upd) s) hmem
    have hm2 : satisfyDep sat (modulesPath self) avail (updateModeArg upd) (n, vr)
        ∈ List.map (fun s =>
            satisfyDep sat (modulesPath self) avail (updateModeArg upd) s) specs := hm
    have he : satisfyDep sat (modulesPath self) avail (updateModeArg upd) (n, vr)
        = Except.error e := hfail
    rwa [he] at hm2
  have herr : RErr.unavailable e ∈ depErrors (specs.map (fun s =>
      satisfyDep sat (modulesPath self) avail (updateModeArg upd) s)) :=
    List.mem_filterMap.2 ⟨Except.error e, hout, rfl⟩
  refine ⟨_, satisfyDependencies_eq sat self avail upd tgt specs hspecs, ?_, ?_, ?_, ?_, ?_⟩
  · exact herr
  · dsimp only
    have hne : depErrors (specs.map (fun s =>
        satisfyDep sat (modulesPath self) avail (updateModeArg upd) s)) ≠ [] :=
      List.ne_nil_of_mem herr
    have hie : (depErrors (specs.map (fun s =>
        satisfyDep sat (modulesPath self) avail (updateModeArg upd) s))).isEmpty = false := by
      cases hE : depErrors (specs.map (fun s =>
          satisfyDep sat (modulesPath self) avail (updateModeArg upd) s)) with
      | nil => exact absurd hE hne
      | cons a l => rfl
    rw [hie]
    simp
  · intro hg
    dsimp only
    cases hl : lookupMap ((specs.map (fun s =>
        satisfyDep sat (modulesPath self) avail (updateModeArg upd) s)).foldl depStep []) n with
    | none => rfl
    | some c =>
      exfalso
      rcases comps_foldl_lookup _ _ _ _ hl with h1 | h1
      · simp [lookupMap] at h1
      · obtain ⟨hcm, hz, hn⟩ := h1
        rcases List.mem_map.1 hcm with ⟨s, hs, hok⟩
        exact hg s hs c hok hz hn
  · rfl
  · intro s hs d hd hdz
    dsimp only
    refine comps_foldl_present _ _ d hdz (Or.inl ?_)
    have hm := List.mem_map_of_mem
      (fun s => satisfyDep sat (modulesPath self) avail (updateModeArg upd) s) hs
    have hm2 : satisfyDep sat (modulesPath self) avail (updateModeArg upd) s
        ∈ List.map (fun s =>
            satisfyDep sat (modulesPath self) avail (updateModeArg upd) s) specs := hm
    have he : satisfyDep sat (modulesPath self) avail (updateModeArg upd) s
        = Except.ok d := hd
    rwa [he] at hm2

/-- Witness for C4: `"bad"` fails with `ComponentUnavailable` while its
sibling `"req"` still resolves (to the component declared `"real"`). -/
theorem satisfyDependencies_unavailable_isolated_witness :
    getDependencySpecs root10 none = Except.ok [("req", "*"), ("bad", "*")]
    ∧ ("bad", "*") ∈ [("req", "*"), ("bad", "*")]
    ∧ sat4 "bad" "*" (modulesPath root10) [] (updateModeArg false)
        = Except.error (SatErr.componentUnavailable "bad@*")
    ∧ (∃ r, satisfyDependencies sat4 root10 [] false none = Except.ok r
        ∧ RErr.unavailable (SatErr.componentUnavailable "bad@*") ∈ r.errors
        ∧ r.selfAfter.dependencies_failed = true
        ∧ ((∀ s ∈ [("req", "*"), ("bad", "*")], ∀ d,
              sat4 s.1 s.2 (modulesPath root10) [] (updateModeArg false) = Except.ok d →
              d.nonzero = true → d.getName ≠ "bad") →
            lookupMap r.components "bad" = none)
        ∧ r.calls = [("req", "*"), ("bad", "*")].map (fun s =>
            { caller := root10, name := s.1, ver_req := s.2,
              modules_path := modulesPath root10, update_mode := updateModeArg false })
        ∧ (∀ s ∈ [("req", "*"), ("bad", "*")], ∀ d,
            sat4 s.1 s.2 (modulesPath root10) [] (updateModeArg false) = Except.ok d →
            d.nonzero = true →
            (lookupMap r.components d.getName).isSome = true)) :=
  ⟨rfl, by decide, rfl,
   satisfyDependencies_unavailable_isolated sat4 root10 [] false none
     [("req", "*"), ("bad", "*")] "bad" "*" (SatErr.componentUnavailable "bad@*")
     rfl (by decide) rfl⟩

theorem satisfyTarget_with_comma_never_raises_witness :
    splitOnceComma "mytarget,1.0.0" = some ("mytarget", "1.0.0")
    ∧ ((∀ t, tgtSatRefuse "mytarget" "1.0.0" (targetsPath compT8) (updateModeArg false)
          = Except.ok t → satisfyTarget tgtSatRefuse compT8 "mytarget,1.0.0" false
          = Except.ok (some t, []))
       ∧ (∀ e, tgtSatRefuse "mytarget" "1.0.0" (targetsPath compT8) (updateModeArg false)
          = Except.error e → satisfyTarget tgtSatRefuse compT8 "mytarget,1.0.0" false
          = Except.ok (none, [e]))) :=
  ⟨rfl, satisfyTarget_with_comma_never_raises tgtSatRefuse compT8 "mytarget,1.0.0" false
    "mytarget" "1.0.0" rfl⟩

end Yotta
